import Mathlib

/-!
Verification of the two PDB text utilities of this repository:
`scripts/util/add_offsite.py` (residue renumbering) and
`scripts/util/pdb_trimmer.py` (residue-range trimming with termination
repair).  Lines are modelled as lists of characters; Python string
slicing, stripping, `int()` parsing and fixed-width integer formatting
are embedded explicitly.
-/

/-- A line of a PDB file, as a list of characters (the trailing newline,
when present in the file, is part of the line, as in Python iteration). -/
abbrev Line := List Char

/-- The ASCII whitespace characters removed by Python `str.strip()`. -/
def isSpaceCh (c : Char) : Bool :=
  decide (c = ' ' ∨ c = '\t' ∨ c = '\n' ∨ c = '\r' ∨ c = '\x0b' ∨ c = '\x0c')

/-- ASCII decimal digit test, as accepted by Python `int()`. -/
def isDig (c : Char) : Bool :=
  decide (48 ≤ c.toNat ∧ c.toNat ≤ 57)

/-- Python slice `l[a:b]` (for `a ≤ b`, which is how the code uses it). -/
def pySlice (a b : Nat) (l : List Char) : List Char :=
  (l.drop a).take (b - a)

/-- Python `str.strip()`: remove whitespace from both ends. -/
def pyStrip (l : List Char) : List Char :=
  ((l.dropWhile isSpaceCh).reverse.dropWhile isSpaceCh).reverse

/-- Numeric value of a digit string (most significant digit first). -/
def charsVal (l : List Char) : Nat :=
  l.foldl (fun a c => a * 10 + (c.toNat - 48)) 0

/-- The digit-group grammar of a Python integer literal body: nonempty,
digits with single underscores allowed only between digits. -/
def pyDigitBody : List Char → Bool
  | [] => false
  | [c] => isDig c
  | c :: d :: rest =>
    isDig c && (if d = '_' then pyDigitBody rest else pyDigitBody (d :: rest))

/-- Python `int(s)`: strip whitespace, optional single sign, digit body;
`none` models the `ValueError` raised on anything else. -/
def pyParseInt (s : List Char) : Option Int :=
  match pyStrip s with
  | [] => none
  | c :: rest =>
    if c = '+' then
      if pyDigitBody rest then some ((charsVal (rest.filter isDig) : Nat) : Int) else none
    else if c = '-' then
      if pyDigitBody rest then some (-((charsVal (rest.filter isDig) : Nat) : Int)) else none
    else
      if pyDigitBody (c :: rest) then
        some ((charsVal ((c :: rest).filter isDig) : Nat) : Int)
      else none

/-- The decimal digit characters. -/
def digChar : Nat → Char
  | 0 => '0'
  | 1 => '1'
  | 2 => '2'
  | 3 => '3'
  | 4 => '4'
  | 5 => '5'
  | 6 => '6'
  | 7 => '7'
  | 8 => '8'
  | 9 => '9'
  | _ => '0'

/-- Decimal digits of a positive natural number, most significant first
(`fuel` bounds the recursion; `natToChars` supplies enough of it). -/
def natToCharsAux : Nat → Nat → List Char
  | 0, _ => []
  | fuel + 1, n =>
    if n = 0 then [] else natToCharsAux fuel (n / 10) ++ [digChar (n % 10)]

/-- Decimal representation of a natural number. -/
def natToChars (n : Nat) : List Char :=
  if n = 0 then ['0'] else natToCharsAux n n

/-- Decimal representation of an integer, as Python `str`/`repr` yield it. -/
def intToChars (n : Int) : List Char :=
  if n < 0 then '-' :: natToChars n.natAbs else natToChars n.toNat

/-- Python `f"{n:4d}"` (equivalently `f"{n:>4}"` for an int): decimal form,
right-justified with spaces to width 4, wider if it does not fit. -/
def pyFormatInt4 (n : Int) : List Char :=
  List.replicate (4 - (intToChars n).length) ' ' ++ intToChars n

/-- Record name of a line: its first six characters, stripped
(`line[0:6].strip()` in both scripts). -/
def recordOf (l : Line) : List Char :=
  pyStrip (pySlice 0 6 l)

def ATOMtok : List Char := "ATOM".toList
def HETATMtok : List Char := "HETATM".toList
def TERtok : List Char := "TER".toList
def ENDtok : List Char := "END".toList
def REMARKtok : List Char := "REMARK".toList
def MODELtok : List Char := "MODEL".toList
def ENDMDLtok : List Char := "ENDMDL".toList
def CRYST1tok : List Char := "CRYST1".toList
def MASTERtok : List Char := "MASTER".toList

/-- The synthesized final line `"END\n"` of the trimmer. -/
def endNL : Line := "END\n".toList

/-- One line of `renumber_pdb_residues` (`add_offsite.py`): on an
ATOM/HETATM record whose resSeq field (columns 23-26) parses as an
integer, add the offset and splice the 4-column-formatted result back;
otherwise the line is unchanged. -/
def renumberLine (offset : Int) (l : Line) : Line :=
  if recordOf l = ATOMtok ∨ recordOf l = HETATMtok then
    match pyParseInt (pyStrip (pySlice 22 26 l)) with
    | none => l
    | some n => l.take 22 ++ pyFormatInt4 (n + offset) ++ l.drop 26
  else l

/-- The in-memory transformation of `renumber_pdb_residues` on the whole
document. -/
def renumberDoc (offset : Int) (doc : List Line) : List Line :=
  doc.map (renumberLine offset)

/-- Observable outcome of a run of the renumberer: either the written
output document, or process termination via `sys.exit`. -/
inductive RenumberOutcome where
  | wrote : List Line → RenumberOutcome
  | exited : Nat → RenumberOutcome
deriving DecidableEq

/-- `renumber_pdb_residues` of `add_offsite.py`: `none` input models a
missing input file (`FileNotFoundError`), on which the script prints an
error and calls `sys.exit(1)`. -/
def renumber_pdb_residues (input : Option (List Line)) (offset : Int) : RenumberOutcome :=
  match input with
  | none => .exited 1
  | some doc => .wrote (renumberDoc offset doc)

/-- A line literally starting with `ATOM` or `HETATM`, the criterion the
trimmer's repair pass uses (`line.startswith(('ATOM', 'HETATM'))`). -/
def atomStart (l : Line) : Bool :=
  ATOMtok.isPrefixOf l || HETATMtok.isPrefixOf l

/-- State of the trimmer's filtering loop: the kept lines
(`trimmed_lines`) and the lines reported in insertion-code warnings. -/
structure TrimAcc where
  kept : List Line
  warns : List Line
deriving DecidableEq

/-- Result of a piece of Python code that may raise: a value, or an
exception (identified by a short message). -/
inductive PyResult (α : Type) where
  | ok : α → PyResult α
  | exn : List Char → PyResult α
deriving DecidableEq

def IndexErrorMsg : List Char := "IndexError".toList
def ValueErrorMsg : List Char := "ValueError".toList

/-- One iteration of the filtering loop of `trim_pdb_by_residue_range`:
ATOM/HETATM lines are kept iff the chain matches and the residue number
is outside the closed removal range; unparseable resSeq is skipped (with
a warning when nonblank); `TER` is kept only right after a kept
ATOM/HETATM line; the fixed metadata records are kept; everything else is
dropped.  `line[21]` raises `IndexError` on a short ATOM/HETATM line. -/
def trimStep (s e : Int) (chain : Option (List Char)) (acc : TrimAcc) (line : Line) :
    PyResult TrimAcc :=
  if recordOf line = ATOMtok ∨ recordOf line = HETATMtok then
    match line.get? 21 with
    | none => .exn IndexErrorMsg
    | some c21 =>
      if pyStrip (pySlice 22 26 line) = [] then .ok acc
      else
        match pyParseInt (pyStrip (pySlice 22 26 line)) with
        | none => .ok { acc with warns := acc.warns ++ [line] }
        | some n =>
          if (chain = none ∨ chain = some (pyStrip [c21])) ∧ ¬(s ≤ n ∧ n ≤ e) then
            .ok { acc with kept := acc.kept ++ [line] }
          else .ok acc
  else if recordOf line = TERtok then
    match acc.kept.getLast? with
    | some lastKept =>
      if atomStart lastKept then .ok { acc with kept := acc.kept ++ [line] } else .ok acc
    | none => .ok acc
  else if recordOf line = REMARKtok ∨ recordOf line = MODELtok ∨
      recordOf line = ENDMDLtok ∨ recordOf line = CRYST1tok ∨
      recordOf line = MASTERtok ∨ recordOf line = ENDtok then
    .ok { acc with kept := acc.kept ++ [line] }
  else .ok acc

/-- The filtering loop over the whole document, stopping at the first
exception (which the function's generic handler then reports). -/
def trimFold (s e : Int) (chain : Option (List Char)) (acc : TrimAcc) :
    List Line → PyResult TrimAcc
  | [] => .ok acc
  | line :: rest =>
    match trimStep s e chain acc line with
    | .ok acc' => trimFold s e chain acc' rest
    | .exn m => .exn m

/-- The backward scan of the repair pass for the last kept line that
literally starts with `ATOM`/`HETATM`. -/
def findLastAtom (tl : List Line) : Option Line :=
  tl.reverse.find? atomStart

/-- TER-record synthesis from the last kept atom line:
`f"TER   {int(serial):>4}      {resName} {chainID}{resSeq}\n"`.
`line[21]` is read before `int(serial)` is evaluated, as in the source. -/
def terSynth (l : Line) : PyResult Line :=
  match l.get? 21 with
  | none => .exn IndexErrorMsg
  | some chainID =>
    match pyParseInt (pySlice 6 11 l) with
    | none => .exn ValueErrorMsg
    | some s =>
      .ok ("TER   ".toList ++ pyFormatInt4 s ++ "      ".toList ++
        pySlice 17 20 l ++ " ".toList ++ [chainID] ++ pySlice 22 26 l ++ "\n".toList)

/-- The final guard of the repair pass: append `"END\n"` unless the list
is nonempty and already ends in a line stripping to `END`. -/
def endCheck (tl : List Line) : List Line :=
  if tl = [] ∨ ¬((tl.getLast?).map pyStrip = some ENDtok) then tl ++ [endNL] else tl

/-- The post-filter termination repair of `trim_pdb_by_residue_range`:
when the kept lines do not already end in `END`, append a synthesized
`TER` after the last kept atom line (when one is found by the raw-text
scan) and then an `END` line. -/
def repairLines (tl : List Line) : PyResult (List Line) :=
  if tl = [] ∨ ¬((tl.getLast?).map pyStrip = some ENDtok) then
    match findLastAtom tl with
    | some la =>
      if TERtok.isPrefixOf la then .ok (endCheck tl)
      else
        match terSynth la with
        | .exn m => .exn m
        | .ok ter => .ok (endCheck (tl ++ [ter]))
    | none => .ok (endCheck tl)
  else .ok tl

/-- Observable outcome of a run of the trimmer: the written output plus
the warned-about lines, or an error report followed by a plain return
(the trimmer never exits with a nonzero status). -/
inductive TrimOutcome where
  | wrote : List Line → List Line → TrimOutcome
  | returned : List Char → TrimOutcome
deriving DecidableEq

def FileNotFoundMsg : List Char := "FileNotFoundError".toList

/-- `trim_pdb_by_residue_range` of `pdb_trimmer.py`: `none` input models
a missing input file; exceptions inside filtering or repair reach the
generic handler, which reports and returns without writing any output. -/
def trim_pdb_by_residue_range (input : Option (List Line)) (s e : Int)
    (chain : Option (List Char)) : TrimOutcome :=
  match input with
  | none => .returned FileNotFoundMsg
  | some doc =>
    match trimFold s e chain ⟨[], []⟩ doc with
    | .exn m => .returned m
    | .ok acc =>
      match repairLines acc.kept with
      | .exn m => .returned m
      | .ok out => .wrote out acc.warns

/-- A minimal well-formed ATOM line: serial 1, residue ALA, chain A, resSeq 1. -/
def atomLine1 : Line := "ATOM      1  N   ALA A   1\n".toList

/-- The TER line the trimmer synthesizes from `atomLine1`. -/
def terLine1 : Line := "TER      1      ALA A   1\n".toList

/-- An ATOM line whose resSeq field is the insertion-coded `100A`. -/
def l100A : Line := "ATOM      1  N   ALA A100A\n".toList

/-- An ATOM line with resSeq 9999, the largest 4-column value. -/
def l9999 : Line := "ATOM      1  N   ALA A9999\n".toList

/-- A HEADER line (not in the trimmer's keep-list). -/
def headerLine : Line := "HEADER    TEST\n".toList

/-- A line shifted right by one column: its stripped record name is still
`ATOM`, but the raw text does not start with `ATOM`. -/
def shiftLine : Line := " ATOM                A   5\n".toList

/-- An ATOM line whose serial field (columns 7-11) is not numeric. -/
def badSerialLine : Line := "ATOM  XXXXX  N   ALA A   1\n".toList

example : recordOf atomLine1 = ATOMtok := by decide
example : atomLine1.get? 21 = some 'A' := by decide
example : pySlice 22 26 atomLine1 = "   1".toList := by decide
example : pySlice 6 11 atomLine1 = "    1".toList := by decide
example : pySlice 17 20 atomLine1 = "ALA".toList := by decide
example : pySlice 22 26 l100A = "100A".toList := by decide
example : recordOf shiftLine = ATOMtok ∧ atomStart shiftLine = false := by decide
example : pyParseInt (pySlice 6 11 badSerialLine) = none := by decide

example :
    trim_pdb_by_residue_range (some [atomLine1]) 10 5 none =
      .wrote [atomLine1, terLine1, endNL] [] := by decide
example :
    trim_pdb_by_residue_range (some [atomLine1]) 5 10 (some ['B']) =
      .wrote [endNL] [] := by decide
example :
    trim_pdb_by_residue_range (some [l100A]) 5 10 none =
      .wrote [endNL] [l100A] := by decide
example :
    trim_pdb_by_residue_range (some [shiftLine]) 10 20 none =
      .wrote [shiftLine, endNL] [] := by decide
example :
    trim_pdb_by_residue_range (some [badSerialLine]) 10 20 none =
      .returned ValueErrorMsg := by decide
example :
    trim_pdb_by_residue_range (some []) 5 10 none = .wrote [endNL] [] := by decide
example :
    trim_pdb_by_residue_range (some [endNL]) 5 10 none = .wrote [endNL] [] := by decide
example :
    renumberDoc (-1) (renumberDoc 1 [l9999]) =
      ["ATOM      1  N   ALA A 9990\n".toList] := by decide
example : renumberLine 1 l100A = l100A := by decide

example : pyParseInt "  12 ".toList = some 12 := by decide
example : pyParseInt " 100A".toList = none := by decide
example : pyParseInt "-999".toList = some (-999) := by decide
example : pyParseInt "1_0".toList = some 10 := by decide
example : pyParseInt "_1".toList = none := by decide
example : pyFormatInt4 7 = "   7".toList := by decide
example : pyFormatInt4 10000 = "10000".toList := by decide
example : pyFormatInt4 (-999) = "-999".toList := by decide

lemma charsVal_append_digit (l : List Char) (c : Char) :
    charsVal (l ++ [c]) = charsVal l * 10 + (c.toNat - 48) := by
  simp [charsVal, List.foldl_append]

lemma digChar_toNat {d : Nat} (h : d < 10) : (digChar d).toNat - 48 = d := by
  interval_cases d <;> decide

lemma isDig_digChar {d : Nat} (h : d < 10) : isDig (digChar d) = true := by
  interval_cases d <;> decide

lemma charsVal_natToCharsAux :
    ∀ fuel n, n ≤ fuel → charsVal (natToCharsAux fuel n) = n := by
  intro fuel
  induction fuel with
  | zero =>
    intro n hn
    have : n = 0 := Nat.le_zero.mp hn
    subst this
    rfl
  | succ f ih =>
    intro n hn
    by_cases h0 : n = 0
    · subst h0; simp [natToCharsAux, charsVal]
    · have hdiv : n / 10 ≤ f := by
        have := Nat.div_lt_self (Nat.pos_of_ne_zero h0) (by norm_num : 1 < 10)
        omega
      have hmod : n % 10 < 10 := Nat.mod_lt _ (by norm_num)
      simp only [natToCharsAux, h0, if_false, charsVal_append_digit, ih _ hdiv,
        digChar_toNat hmod]
      omega

lemma mem_natToCharsAux_isDig :
    ∀ fuel n c, c ∈ natToCharsAux fuel n → isDig c = true := by
  intro fuel
  induction fuel with
  | zero => intro n c hc; simp [natToCharsAux] at hc
  | succ f ih =>
    intro n c hc
    by_cases h0 : n = 0
    · subst h0; simp [natToCharsAux] at hc
    · simp only [natToCharsAux, h0, if_false, List.mem_append, List.mem_singleton] at hc
      rcases hc with hc | hc
      · exact ih _ _ hc
      · subst hc; exact isDig_digChar (Nat.mod_lt _ (by norm_num))

lemma natToCharsAux_ne_nil :
    ∀ fuel n, n ≠ 0 → n ≤ fuel → natToCharsAux fuel n ≠ [] := by
  intro fuel
  cases fuel with
  | zero => intro n h0 hn; omega
  | succ f =>
    intro n h0 _
    simp only [natToCharsAux, h0, if_false]
    exact fun h => by simp at h

lemma charsVal_natToChars (n : Nat) : charsVal (natToChars n) = n := by
  by_cases h0 : n = 0
  · subst h0; rfl
  · simp only [natToChars, h0, if_false]
    exact charsVal_natToCharsAux n n le_rfl

lemma mem_natToChars_isDig {n : Nat} {c : Char} (hc : c ∈ natToChars n) :
    isDig c = true := by
  by_cases h0 : n = 0
  · subst h0
    simp [natToChars] at hc
    subst hc; decide
  · simp only [natToChars, h0, if_false] at hc
    exact mem_natToCharsAux_isDig n n c hc

lemma natToChars_ne_nil (n : Nat) : natToChars n ≠ [] := by
  by_cases h0 : n = 0
  · subst h0; simp [natToChars]
  · simp only [natToChars, h0, if_false]
    exact natToCharsAux_ne_nil n n h0 le_rfl

lemma natToCharsAux_length :
    ∀ fuel n j, n ≤ fuel → n < 10 ^ j → (natToCharsAux fuel n).length ≤ j := by
  intro fuel
  induction fuel with
  | zero =>
    intro n j hn _
    have : n = 0 := Nat.le_zero.mp hn
    subst this
    simp [natToCharsAux]
  | succ f ih =>
    intro n j hn hj
    by_cases h0 : n = 0
    · subst h0; simp [natToCharsAux]
    · cases j with
      | zero => simp at hj; omega
      | succ j' =>
        have hdiv : n / 10 ≤ f := by
          have := Nat.div_lt_self (Nat.pos_of_ne_zero h0) (by norm_num : 1 < 10)
          omega
        have hlt : n / 10 < 10 ^ j' := by
          rw [Nat.div_lt_iff_lt_mul (by norm_num : 0 < 10)]
          calc n < 10 ^ (j' + 1) := hj
            _ = 10 ^ j' * 10 := by ring
        simp only [natToCharsAux, h0, if_false, List.length_append, List.length_singleton]
        have := ih (n / 10) j' hdiv hlt
        omega

lemma natToChars_length_le {n j : Nat} (hj : 1 ≤ j) (h : n < 10 ^ j) :
    (natToChars n).length ≤ j := by
  by_cases h0 : n = 0
  · subst h0; simpa [natToChars] using hj
  · simp only [natToChars, h0, if_false]
    exact natToCharsAux_length n n j le_rfl h

lemma intToChars_length_le4 {n : Int} (h1 : -999 ≤ n) (h2 : n ≤ 9999) :
    (intToChars n).length ≤ 4 := by
  by_cases hn : n < 0
  · simp only [intToChars, hn, if_pos, List.length_cons]
    have habs : n.natAbs ≤ 999 := by omega
    have : (natToChars n.natAbs).length ≤ 3 :=
      natToChars_length_le (by norm_num) (by norm_num; omega)
    omega
  · simp only [intToChars, hn, if_false]
    have : n.toNat ≤ 9999 := by omega
    exact natToChars_length_le (by norm_num) (by norm_num; omega)

lemma pyFormatInt4_length {n : Int} (h1 : -999 ≤ n) (h2 : n ≤ 9999) :
    (pyFormatInt4 n).length = 4 := by
  have := intToChars_length_le4 h1 h2
  simp only [pyFormatInt4, List.length_append, List.length_replicate]
  omega

lemma pyDigitBody_of_all_digits :
    ∀ l : List Char, l ≠ [] → (∀ c ∈ l, isDig c = true) → pyDigitBody l = true := by
  intro l
  induction l with
  | nil => intro h; exact absurd rfl h
  | cons c t ih =>
    intro _ hall
    cases t with
    | nil => simpa [pyDigitBody] using hall c (by simp)
    | cons d rest =>
      have hd : isDig d = true := hall d (by simp)
      have hdu : ¬ d = '_' := by
        intro h; subst h; exact absurd hd (by decide)
      simp only [pyDigitBody, hdu, if_false, hall c (by simp), Bool.true_and]
      exact ih (by simp) (fun x hx => hall x (List.mem_cons_of_mem _ hx))

lemma filter_isDig_of_all {l : List Char} (h : ∀ c ∈ l, isDig c = true) :
    l.filter isDig = l :=
  List.filter_eq_self.mpr h

lemma isSpaceCh_of_isDig {c : Char} (h : isDig c = true) : isSpaceCh c = false := by
  refine decide_eq_false ?_
  rintro (rfl | rfl | rfl | rfl | rfl | rfl) <;> exact absurd h (by decide)

lemma dropWhile_replicate_space (j : Nat) (s : List Char) :
    (List.replicate j ' ' ++ s).dropWhile isSpaceCh = s.dropWhile isSpaceCh := by
  induction j with
  | zero => simp
  | succ k ih =>
    rw [List.replicate_succ, List.cons_append, List.dropWhile_cons_of_pos (by decide)]
    exact ih

lemma dropWhile_cons_of_false {p : Char → Bool} {c : Char} {l : List Char}
    (h : p c = false) : (c :: l).dropWhile p = c :: l :=
  List.dropWhile_cons_of_neg (by simp [h])

lemma dropWhile_append_last {p : Char → Bool} {c : Char} (h : p c = false) :
    ∀ r : List Char, ∃ r', (r ++ [c]).dropWhile p = r' ++ [c] := by
  intro r
  induction r with
  | nil =>
    refine ⟨[], ?_⟩
    simp only [List.nil_append]
    exact dropWhile_cons_of_false h
  | cons a t ih =>
    cases hpa : p a with
    | true =>
      obtain ⟨r', hr'⟩ := ih
      exact ⟨r', by rw [List.cons_append, List.dropWhile_cons_of_pos (by simp [hpa])]; exact hr'⟩
    | false =>
      exact ⟨a :: t, by rw [List.cons_append, dropWhile_cons_of_false hpa]⟩

lemma pyStrip_head {c : Char} (hc : isSpaceCh c = false) (x : List Char) :
    ∃ r', pyStrip (c :: x) = c :: r' := by
  unfold pyStrip
  rw [dropWhile_cons_of_false hc, List.reverse_cons]
  obtain ⟨r', hr'⟩ := dropWhile_append_last hc x.reverse
  exact ⟨r'.reverse, by rw [hr', List.reverse_append]; rfl⟩

lemma pyStrip_replicate_space (j : Nat) (s : List Char) :
    pyStrip (List.replicate j ' ' ++ s) = pyStrip s := by
  unfold pyStrip
  rw [dropWhile_replicate_space]

lemma pyStrip_id {l : List Char} (hne : l ≠ [])
    (hh : ∀ c, l.head? = some c → isSpaceCh c = false)
    (hl : ∀ c, l.getLast? = some c → isSpaceCh c = false) : pyStrip l = l := by
  obtain ⟨c, t, rfl⟩ : ∃ c t, l = c :: t := by
    cases l with
    | nil => exact absurd rfl hne
    | cons c t => exact ⟨c, t, rfl⟩
  unfold pyStrip
  rw [dropWhile_cons_of_false (hh c rfl)]
  cases hr : (c :: t).reverse with
  | nil => simp at hr
  | cons d r =>
    have hd : (c :: t).getLast? = some d := by
      rw [← List.head?_reverse, hr]; rfl
    rw [dropWhile_cons_of_false (hl d hd), ← hr, List.reverse_reverse]

lemma intToChars_ne_nil (n : Int) : intToChars n ≠ [] := by
  unfold intToChars
  split
  · simp
  · exact natToChars_ne_nil _

lemma intToChars_head_not_space {n : Int} {c : Char}
    (h : (intToChars n).head? = some c) : isSpaceCh c = false := by
  unfold intToChars at h
  split at h
  · simp at h; subst h; decide
  · cases hd : natToChars n.toNat with
    | nil => exact absurd hd (natToChars_ne_nil _)
    | cons d r =>
      rw [hd] at h
      simp at h; subst h
      exact isSpaceCh_of_isDig (mem_natToChars_isDig (hd ▸ List.mem_cons_self d r))

lemma natToChars_getLast_digit {n : Nat} {c : Char}
    (h : (natToChars n).getLast? = some c) : isDig c = true :=
  mem_natToChars_isDig (List.mem_of_getLast?_eq_some h)

lemma intToChars_getLast_not_space {n : Int} {c : Char}
    (h : (intToChars n).getLast? = some c) : isSpaceCh c = false := by
  unfold intToChars at h
  split at h
  · cases hd : natToChars n.natAbs with
    | nil => exact absurd hd (natToChars_ne_nil _)
    | cons d r =>
      rw [hd, List.getLast?_cons_cons] at h
      exact isSpaceCh_of_isDig (natToChars_getLast_digit (hd ▸ h))
  · exact isSpaceCh_of_isDig (natToChars_getLast_digit h)

lemma pyStrip_intToChars (n : Int) : pyStrip (intToChars n) = intToChars n :=
  pyStrip_id (intToChars_ne_nil n) (fun _ h => intToChars_head_not_space h)
    (fun _ h => intToChars_getLast_not_space h)

lemma pyStrip_pyFormatInt4 (n : Int) : pyStrip (pyFormatInt4 n) = intToChars n := by
  unfold pyFormatInt4
  rw [pyStrip_replicate_space, pyStrip_intToChars]

lemma pyParseInt_natToChars (m : Nat) : pyParseInt (natToChars m) = some (m : Int) := by
  have hstrip : pyStrip (natToChars m) = natToChars m := by
    have := pyStrip_intToChars (m : Int)
    simpa [intToChars, Int.toNat_natCast] using this
  cases hd : natToChars m with
  | nil => exact absurd hd (natToChars_ne_nil _)
  | cons c r =>
    have hcd : isDig c = true := mem_natToChars_isDig (hd ▸ List.mem_cons_self c r)
    have hcp : ¬ c = '+' := by intro h; subst h; exact absurd hcd (by decide)
    have hcm : ¬ c = '-' := by intro h; subst h; exact absurd hcd (by decide)
    have hall : ∀ x ∈ c :: r, isDig x = true := fun x hx =>
      mem_natToChars_isDig (hd ▸ hx)
    have hbody : pyDigitBody (c :: r) = true :=
      pyDigitBody_of_all_digits _ (by simp) hall
    have hsc : pyStrip (c :: r) = c :: r := hd ▸ hstrip
    unfold pyParseInt
    rw [hsc]
    simp only [hbody, if_neg hcp, if_neg hcm, eq_self_iff_true, if_true,
      filter_isDig_of_all hall]
    rw [← hd, charsVal_natToChars]

lemma pyParseInt_intToChars (n : Int) : pyParseInt (intToChars n) = some n := by
  by_cases hn : n < 0
  · have hform : intToChars n = '-' :: natToChars n.natAbs := by
      simp [intToChars, hn]
    have hsc : pyStrip (intToChars n) = '-' :: natToChars n.natAbs :=
      (pyStrip_intToChars n).trans hform
    have hall : ∀ x ∈ natToChars n.natAbs, isDig x = true := fun x hx =>
      mem_natToChars_isDig hx
    have hbody : pyDigitBody (natToChars n.natAbs) = true :=
      pyDigitBody_of_all_digits _ (natToChars_ne_nil _) hall
    unfold pyParseInt
    rw [hsc]
    simp only [hbody, if_neg (by decide : ¬('-' : Char) = '+'), eq_self_iff_true,
      if_true, filter_isDig_of_all hall, charsVal_natToChars]
    congr 1
    omega
  · have hform : intToChars n = natToChars n.toNat := by
      simp [intToChars, hn]
    rw [hform, pyParseInt_natToChars]
    congr 1
    omega

lemma pyParseInt_strip_format (n : Int) :
    pyParseInt (pyStrip (pyFormatInt4 n)) = some n := by
  rw [pyStrip_pyFormatInt4]
  exact pyParseInt_intToChars n

lemma pySlice_22_26 (l : Line) : pySlice 22 26 l = (l.drop 22).take 4 := rfl

lemma pyFormatInt4_length_ge (n : Int) : 4 ≤ (pyFormatInt4 n).length := by
  simp only [pyFormatInt4, List.length_append, List.length_replicate]
  omega

lemma parse_some_length {l : Line} {n : Int}
    (h : pyParseInt (pyStrip (pySlice 22 26 l)) = some n) : 22 < l.length := by
  by_contra hlen
  push_neg at hlen
  rw [show pySlice 22 26 l = [] from by
      simp [pySlice, List.drop_eq_nil_of_le hlen]] at h
  rw [show pyParseInt (pyStrip ([] : List Char)) = none from rfl] at h
  cases h

lemma renumberLine_eq {l : Line} {n : Int}
    (hrec : recordOf l = ATOMtok ∨ recordOf l = HETATMtok)
    (hp : pyParseInt (pyStrip (pySlice 22 26 l)) = some n) (k : Int) :
    renumberLine k l = l.take 22 ++ pyFormatInt4 (n + k) ++ l.drop 26 := by
  unfold renumberLine
  rw [if_pos hrec, hp]

lemma renumberLine_id_of_not_atom {l : Line} (k : Int)
    (h : ¬(recordOf l = ATOMtok ∨ recordOf l = HETATMtok)) : renumberLine k l = l := by
  unfold renumberLine
  rw [if_neg h]

lemma renumberLine_id_of_parse_none {l : Line} (k : Int)
    (hrec : recordOf l = ATOMtok ∨ recordOf l = HETATMtok)
    (hp : pyParseInt (pyStrip (pySlice 22 26 l)) = none) : renumberLine k l = l := by
  unfold renumberLine
  rw [if_pos hrec, hp]

lemma spliced_take_22 {l : Line} (F B : List Char) (hlen : 22 ≤ l.length) :
    (l.take 22 ++ F ++ B).take 22 = l.take 22 := by
  rw [List.append_assoc, List.take_left' (List.length_take_of_le hlen)]

lemma spliced_drop_26 {l : Line} (F B : List Char) (hlen : 22 ≤ l.length)
    (hF : F.length = 4) : (l.take 22 ++ F ++ B).drop 26 = B := by
  apply List.drop_left'
  simp [List.length_take_of_le hlen, hF]

lemma spliced_slice {l : Line} (F B : List Char) (hlen : 22 ≤ l.length)
    (hF : F.length = 4) : pySlice 22 26 (l.take 22 ++ F ++ B) = F := by
  rw [pySlice_22_26, List.append_assoc, List.drop_left' (List.length_take_of_le hlen),
    List.take_left' hF]

lemma spliced_record {l : Line} (F B : List Char) (hlen : 22 ≤ l.length) :
    recordOf (l.take 22 ++ F ++ B) = recordOf l := by
  unfold recordOf
  congr 1
  show ((l.take 22 ++ F ++ B).drop 0).take 6 = (l.drop 0).take 6
  simp only [List.drop_zero]
  rw [List.append_assoc, List.take_append_of_le_length (by
    rw [List.length_take_of_le hlen]; omega)]
  rw [List.take_take]
  norm_num

/-- Decomposition of a line around a canonically-formatted resSeq field. -/
lemma line_decomp {l : Line} {n : Int} (hcanon : pySlice 22 26 l = pyFormatInt4 n) :
    l = l.take 22 ++ pyFormatInt4 n ++ l.drop 26 := by
  conv_lhs => rw [← List.take_append_drop 22 l, ← List.take_append_drop 4 (l.drop 22)]
  rw [List.drop_drop, ← pySlice_22_26, hcanon, List.append_assoc]

lemma canon_field_length {l : Line} {n : Int}
    (hcanon : pySlice 22 26 l = pyFormatInt4 n) :
    (pyFormatInt4 n).length = 4 ∧ 26 ≤ l.length := by
  have hsl : (pySlice 22 26 l).length ≤ 4 := by
    rw [pySlice_22_26]
    exact List.length_take_le _ _
  rw [hcanon] at hsl
  have hge := pyFormatInt4_length_ge n
  refine ⟨by omega, ?_⟩
  have : (pySlice 22 26 l).length = 4 := by rw [hcanon]; omega
  rw [pySlice_22_26, List.length_take, List.length_drop] at this
  omega

/-- Core renumber round trip on a single line with a canonical resSeq
field, when the shifted residue number still fits in 4 characters. -/
lemma renumberLine_roundtrip {l : Line} {n k : Int}
    (hrec : recordOf l = ATOMtok ∨ recordOf l = HETATMtok)
    (hcanon : pySlice 22 26 l = pyFormatInt4 n)
    (h1 : -999 ≤ n + k) (h2 : n + k ≤ 9999) :
    renumberLine (-k) (renumberLine k l) = l := by
  obtain ⟨hF, hlen⟩ := canon_field_length hcanon
  have hlen22 : 22 ≤ l.length := by omega
  have hp : pyParseInt (pyStrip (pySlice 22 26 l)) = some n := by
    rw [hcanon]; exact pyParseInt_strip_format n
  have hFk : (pyFormatInt4 (n + k)).length = 4 := pyFormatInt4_length h1 h2
  rw [renumberLine_eq hrec hp k]
  set l' := l.take 22 ++ pyFormatInt4 (n + k) ++ l.drop 26 with hl'
  have hrec' : recordOf l' = ATOMtok ∨ recordOf l' = HETATMtok := by
    rw [hl', spliced_record _ _ hlen22]
    exact hrec
  have hp' : pyParseInt (pyStrip (pySlice 22 26 l')) = some (n + k) := by
    rw [hl', spliced_slice _ _ hlen22 hFk]
    exact pyParseInt_strip_format (n + k)
  rw [renumberLine_eq hrec' hp' (-k), hl']
  rw [spliced_take_22 _ _ hlen22, spliced_drop_26 _ _ hlen22 hFk]
  rw [show n + k + -k = n from by ring]
  exact (line_decomp hcanon).symm

/-- C3 (amended): for every transformed ATOM/HETATM line whose original
resSeq parsed to `n`, and every offset `k` with `-999 ≤ n + k ≤ 9999`
(the shifted number fits in 4 characters), columns before 23 and after 26
are unchanged and the spliced resSeq field is exactly 4 characters wide.
For shifted numbers outside that range the field widens. -/
theorem renumber_column_invariance (l : Line) (k n : Int)
    (hrec : recordOf l = ATOMtok ∨ recordOf l = HETATMtok)
    (hp : pyParseInt (pyStrip (pySlice 22 26 l)) = some n)
    (h1 : -999 ≤ n + k) (h2 : n + k ≤ 9999) :
    (renumberLine k l).take 22 = l.take 22 ∧
    (renumberLine k l).drop 26 = l.drop 26 ∧
    pySlice 22 26 (renumberLine k l) = pyFormatInt4 (n + k) ∧
    (pyFormatInt4 (n + k)).length = 4 := by
  have hlen : 22 ≤ l.length := (parse_some_length hp).le
  have hFk : (pyFormatInt4 (n + k)).length = 4 := pyFormatInt4_length h1 h2
  rw [renumberLine_eq hrec hp k]
  exact ⟨spliced_take_22 _ _ hlen, spliced_drop_26 _ _ hlen hFk,
    spliced_slice _ _ hlen hFk, hFk⟩

/-- Witness for C3 at `atomLine1` (resSeq 1) and offset 7. -/
theorem renumber_column_invariance_witness :
    (renumberLine 7 atomLine1).take 22 = atomLine1.take 22 ∧
    (renumberLine 7 atomLine1).drop 26 = atomLine1.drop 26 ∧
    pySlice 22 26 (renumberLine 7 atomLine1) = pyFormatInt4 (1 + 7) ∧
    (pyFormatInt4 (1 + 7)).length = 4 :=
  renumber_column_invariance atomLine1 7 1 (by decide) (by decide)
    (by decide) (by decide)

/-- C3 counterexample: at offset 1 on a line with resSeq 9999 the new
number needs 5 characters, so characters outside columns 23-26 change
(the claim asserted invariance for every integer offset). -/
theorem renumber_column_invariance_cex :
    recordOf l9999 = ATOMtok ∧
    pyParseInt (pyStrip (pySlice 22 26 l9999)) = some 9999 ∧
    (renumberLine 1 l9999).drop 26 ≠ l9999.drop 26 ∧
    (renumberLine 1 l9999).length ≠ l9999.length := by decide

/-- C4 (amended): on a document whose ATOM/HETATM resSeq fields are
canonically formatted (right-justified in the 4 columns, as the PDB
format requires) and whose shifted residue numbers all fit in 4
characters, renumbering by `k` and then by `-k` restores the document. -/
theorem renumber_inverse_roundtrip (doc : List Line) (k : Int)
    (h : ∀ l ∈ doc, (recordOf l = ATOMtok ∨ recordOf l = HETATMtok) →
      ∀ n : Int, pyParseInt (pyStrip (pySlice 22 26 l)) = some n →
        pySlice 22 26 l = pyFormatInt4 n ∧ -999 ≤ n + k ∧ n + k ≤ 9999) :
    renumberDoc (-k) (renumberDoc k doc) = doc := by
  unfold renumberDoc
  rw [List.map_map]
  have key : ∀ l ∈ doc, renumberLine (-k) (renumberLine k l) = l := by
    intro l hl
    by_cases hrec : recordOf l = ATOMtok ∨ recordOf l = HETATMtok
    · cases hp : pyParseInt (pyStrip (pySlice 22 26 l)) with
      | none =>
        rw [renumberLine_id_of_parse_none k hrec hp,
          renumberLine_id_of_parse_none (-k) hrec hp]
      | some n =>
        obtain ⟨hcanon, hb1, hb2⟩ := h l hl hrec n hp
        exact renumberLine_roundtrip hrec hcanon hb1 hb2
    · rw [renumberLine_id_of_not_atom k hrec, renumberLine_id_of_not_atom (-k) hrec]
  calc doc.map (renumberLine (-k) ∘ renumberLine k)
      = doc.map id := List.map_congr_left (fun l hl => key l hl)
    _ = doc := List.map_id doc

/-- Witness for C4 on a two-line document with offset 7. -/
theorem renumber_inverse_roundtrip_witness :
    renumberDoc (-7) (renumberDoc 7 [atomLine1, headerLine]) = [atomLine1, headerLine] := by
  refine renumber_inverse_roundtrip [atomLine1, headerLine] 7 ?_
  intro l hl
  simp only [List.mem_cons, List.not_mem_nil, or_false] at hl
  rcases hl with rfl | rfl
  · intro _ n hp
    rw [show pyParseInt (pyStrip (pySlice 22 26 atomLine1)) = some 1 from by decide] at hp
    injection hp with hn
    subst hn
    exact ⟨by decide, by decide, by decide⟩
  · intro hrec
    exact absurd hrec (by decide)

lemma pyStrip_nil : pyStrip ([] : List Char) = [] := rfl

lemma endCheck_getLast (tl : List Line) :
    ∃ lastL, (endCheck tl).getLast? = some lastL ∧ pyStrip lastL = ENDtok := by
  unfold endCheck
  split
  · exact ⟨endNL, List.getLast?_concat tl, by decide⟩
  · rename_i h
    push_neg at h
    obtain ⟨hne, hEnd⟩ := h
    cases hg : tl.getLast? with
    | none => rw [hg] at hEnd; simp at hEnd
    | some x =>
      rw [hg] at hEnd
      simp only [Option.map_some', Option.some.injEq] at hEnd
      exact ⟨x, rfl, hEnd⟩

lemma endCheck_suffix (tl : List Line) : ∃ suf, endCheck tl = tl ++ suf := by
  unfold endCheck
  split
  · exact ⟨[endNL], rfl⟩
  · exact ⟨[], (List.append_nil tl).symm⟩

/-- Exhaustive branch computation of `repairLines`: the result is one of
the four possible shapes. -/
lemma repairLines_cases (tl : List Line) :
    (¬(tl = [] ∨ ¬Option.map pyStrip tl.getLast? = some ENDtok) ∧
      repairLines tl = .ok tl) ∨
    ((tl = [] ∨ ¬Option.map pyStrip tl.getLast? = some ENDtok) ∧
      ((findLastAtom tl = none ∧ repairLines tl = .ok (endCheck tl)) ∨
       (∃ la, findLastAtom tl = some la ∧ TERtok.isPrefixOf la = true ∧
         repairLines tl = .ok (endCheck tl)) ∨
       (∃ la m, findLastAtom tl = some la ∧ TERtok.isPrefixOf la = false ∧
         terSynth la = .exn m ∧ repairLines tl = .exn m) ∨
       (∃ la ter, findLastAtom tl = some la ∧ TERtok.isPrefixOf la = false ∧
         terSynth la = .ok ter ∧ repairLines tl = .ok (endCheck (tl ++ [ter]))))) := by
  by_cases hc : tl = [] ∨ ¬Option.map pyStrip tl.getLast? = some ENDtok
  · right
    refine ⟨hc, ?_⟩
    cases hfa : findLastAtom tl with
    | none =>
      left
      exact ⟨rfl, by simp only [repairLines, if_pos hc, hfa]⟩
    | some la =>
      cases hter : TERtok.isPrefixOf la with
      | true =>
        right; left
        exact ⟨la, rfl, hter, by simp only [repairLines, if_pos hc, hfa, hter, if_pos]⟩
      | false =>
        cases hts : terSynth la with
        | exn m =>
          right; right; left
          refine ⟨la, m, rfl, hter, hts, ?_⟩
          simp only [repairLines, if_pos hc, hfa, hts]
          rw [if_neg (by simp [hter])]
        | ok ter =>
          right; right; right
          refine ⟨la, ter, rfl, hter, hts, ?_⟩
          simp only [repairLines, if_pos hc, hfa, hts]
          rw [if_neg (by simp [hter])]
  · left
    exact ⟨hc, by simp only [repairLines, if_neg hc]⟩

lemma repairLines_getLast {tl out : List Line} (h : repairLines tl = .ok out) :
    ∃ lastL, out.getLast? = some lastL ∧ pyStrip lastL = ENDtok := by
  rcases repairLines_cases tl with ⟨hc, heq⟩ |
    ⟨hc, ⟨_, heq⟩ | ⟨la, _, _, heq⟩ | ⟨la, m, _, _, _, heq⟩ | ⟨la, ter, _, _, _, heq⟩⟩
  · rw [heq] at h
    injection h with h'
    subst h'
    push_neg at hc
    obtain ⟨hne, hEnd⟩ := hc
    cases hg : tl.getLast? with
    | none => rw [hg] at hEnd; simp at hEnd
    | some x =>
      rw [hg] at hEnd
      simp only [Option.map_some', Option.some.injEq] at hEnd
      exact ⟨x, rfl, hEnd⟩
  · rw [heq] at h
    injection h with h'
    exact h' ▸ endCheck_getLast tl
  · rw [heq] at h
    injection h with h'
    exact h' ▸ endCheck_getLast tl
  · rw [heq] at h
    cases h
  · rw [heq] at h
    injection h with h'
    exact h' ▸ endCheck_getLast (tl ++ [ter])

lemma repairLines_suffix {tl out : List Line} (h : repairLines tl = .ok out) :
    ∃ suf, out = tl ++ suf := by
  rcases repairLines_cases tl with ⟨hc, heq⟩ |
    ⟨hc, ⟨_, heq⟩ | ⟨la, _, _, heq⟩ | ⟨la, m, _, _, _, heq⟩ | ⟨la, ter, _, _, _, heq⟩⟩
  · rw [heq] at h
    injection h with h'
    exact ⟨[], by rw [← h', List.append_nil]⟩
  · rw [heq] at h
    injection h with h'
    obtain ⟨suf, hsuf⟩ := endCheck_suffix tl
    exact ⟨suf, h' ▸ hsuf⟩
  · rw [heq] at h
    injection h with h'
    obtain ⟨suf, hsuf⟩ := endCheck_suffix tl
    exact ⟨suf, h' ▸ hsuf⟩
  · rw [heq] at h
    cases h
  · rw [heq] at h
    injection h with h'
    obtain ⟨suf, hsuf⟩ := endCheck_suffix (tl ++ [ter])
    refine ⟨[ter] ++ suf, ?_⟩
    rw [← h', hsuf, List.append_assoc]

lemma trimStep_kept {s e : Int} {chain : Option (List Char)} {acc acc' : TrimAcc}
    {l : Line} (h : trimStep s e chain acc l = .ok acc') :
    acc'.kept = acc.kept ∨ acc'.kept = acc.kept ++ [l] := by
  unfold trimStep at h
  repeat' split at h
  all_goals (try cases h)
  all_goals simp

lemma trimFold_kept_suffix {s e : Int} {chain : Option (List Char)} :
    ∀ (doc : List Line) (acc acc' : TrimAcc),
      trimFold s e chain acc doc = .ok acc' → ∃ suf, acc'.kept = acc.kept ++ suf := by
  intro doc
  induction doc with
  | nil =>
    intro acc acc' h
    cases h
    exact ⟨[], (List.append_nil _).symm⟩
  | cons l rest ih =>
    intro acc acc' h
    unfold trimFold at h
    cases hstep : trimStep s e chain acc l <;> rw [hstep] at h
    · obtain ⟨suf2, hsuf2⟩ := ih _ _ h
      rcases trimStep_kept hstep with hk | hk
      · exact ⟨suf2, by rw [hsuf2, hk]⟩
      · exact ⟨[l] ++ suf2, by rw [hsuf2, hk, List.append_assoc]⟩
    · cases h

lemma get21_some {l : Line} (h : 22 < l.length) : ∃ c, l.get? 21 = some c := by
  cases hg : l.get? 21 with
  | none =>
    have := List.get?_eq_none.mp hg
    omega
  | some c => exact ⟨c, rfl⟩

lemma head_of_isPrefixOf {a : Char} {p l : List Char}
    (h : (a :: p).isPrefixOf l = true) : ∃ t, l = a :: t := by
  cases l with
  | nil => simp [List.isPrefixOf] at h
  | cons b t =>
    simp only [List.isPrefixOf, Bool.and_eq_true, beq_iff_eq] at h
    exact ⟨t, by rw [h.1]⟩

lemma atomStart_not_TER {l : Line} (h : atomStart l = true) :
    TERtok.isPrefixOf l = false := by
  unfold atomStart at h
  rcases Bool.or_eq_true_iff.mp h with h1 | h1
  · obtain ⟨t, rfl⟩ :=
      head_of_isPrefixOf (show (('A' : Char) :: "TOM".toList).isPrefixOf l = true from h1)
    rfl
  · obtain ⟨t, rfl⟩ :=
      head_of_isPrefixOf (show (('H' : Char) :: "ETATM".toList).isPrefixOf l = true from h1)
    rfl

lemma findLastAtom_some {tl : List Line} (h : ∃ l ∈ tl, atomStart l = true) :
    ∃ la, findLastAtom tl = some la ∧ atomStart la = true := by
  obtain ⟨x, hx, hax⟩ := h
  have hsome : (tl.reverse.find? atomStart).isSome :=
    List.find?_isSome.mpr ⟨x, List.mem_reverse.mpr hx, hax⟩
  cases hfa : tl.reverse.find? atomStart with
  | none => rw [hfa] at hsome; cases hsome
  | some la => exact ⟨la, hfa, List.find?_some hfa⟩

lemma terSynth_shape {l ter : Line} (h : terSynth l = .ok ter) :
    ∃ r, ter = 'T' :: 'E' :: 'R' :: r := by
  unfold terSynth at h
  cases hg : l.get? 21 <;> rw [hg] at h
  · cases h
  · cases hp : pyParseInt (pySlice 6 11 l) <;> rw [hp] at h
    · cases h
    · injection h with h'
      exact ⟨_, h'.symm⟩

lemma pyStrip_terLine {r : List Char} : pyStrip ('T' :: 'E' :: 'R' :: r) ≠ ENDtok := by
  obtain ⟨r', hr'⟩ := pyStrip_head (by decide : isSpaceCh 'T' = false) ('E' :: 'R' :: r)
  rw [hr']
  intro hcontra
  have h2 := congrArg (fun x => x.head?) hcontra
  simp [ENDtok] at h2

lemma trimStep_keeps_line {s e : Int} {chain : Option (List Char)} {acc acc' : TrimAcc}
    {l : Line} {c21 : Char} {n : Int}
    (hrec : recordOf l = ATOMtok ∨ recordOf l = HETATMtok)
    (hg : l.get? 21 = some c21)
    (hp : pyParseInt (pyStrip (pySlice 22 26 l)) = some n)
    (hchain : chain = none ∨ chain = some (pyStrip [c21]))
    (hrange : ¬(s ≤ n ∧ n ≤ e))
    (h : trimStep s e chain acc l = .ok acc') :
    acc' = { acc with kept := acc.kept ++ [l] } := by
  have hne : ¬ pyStrip (pySlice 22 26 l) = [] := by
    intro h0
    rw [h0] at hp
    rw [show pyParseInt ([] : List Char) = none from rfl] at hp
    cases hp
  unfold trimStep at h
  rw [if_pos hrec, hg] at h
  simp only [if_neg hne, hp, if_pos (And.intro hchain hrange)] at h
  injection h with h'
  exact h'.symm

lemma trimFold_keeps {s e : Int} {chain : Option (List Char)} (hse : e < s) :
    ∀ (doc : List Line) (acc acc' : TrimAcc),
      trimFold s e chain acc doc = .ok acc' →
      ∀ l ∈ doc, (recordOf l = ATOMtok ∨ recordOf l = HETATMtok) →
        (∃ n, pyParseInt (pyStrip (pySlice 22 26 l)) = some n) →
        (chain = none ∨ ∃ c, l.get? 21 = some c ∧ chain = some (pyStrip [c])) →
        l ∈ acc'.kept := by
  intro doc
  induction doc with
  | nil => intro acc acc' _ l hl; cases hl
  | cons x rest ih =>
    intro acc acc' h l hl hrec hn hchain
    unfold trimFold at h
    cases hstep : trimStep s e chain acc x <;> rw [hstep] at h
    · rcases List.mem_cons.mp hl with rfl | hlrest
      · obtain ⟨n, hp⟩ := hn
        obtain ⟨c21, hg⟩ := get21_some (parse_some_length hp)
        have hchain' : chain = none ∨ chain = some (pyStrip [c21]) := by
          rcases hchain with hc | ⟨c, hgc, hc⟩
          · exact Or.inl hc
          · rw [hg] at hgc
            injection hgc with hcc
            exact Or.inr (hcc ▸ hc)
        have hrange : ¬(s ≤ n ∧ n ≤ e) := by omega
        have hacc := trimStep_keeps_line hrec hg hp hchain' hrange hstep
        subst hacc
        obtain ⟨suf, hsuf⟩ := trimFold_kept_suffix rest _ _ h
        rw [hsuf]
        simp
      · exact ih _ _ h l hlrest hrec hn hchain
    · cases h

lemma trim_some_eq {doc out : List Line} {s e : Int} {chain : Option (List Char)}
    {acc : TrimAcc} (hf : trimFold s e chain ⟨[], []⟩ doc = .ok acc)
    (hr : repairLines acc.kept = .ok out) :
    trim_pdb_by_residue_range (some doc) s e chain = .wrote out acc.warns := by
  simp only [trim_pdb_by_residue_range, hf, hr]

lemma trim_wrote_inv {doc out : List Line} {s e : Int} {chain : Option (List Char)}
    {ws : List Line}
    (h : trim_pdb_by_residue_range (some doc) s e chain = .wrote out ws) :
    ∃ acc, trimFold s e chain ⟨[], []⟩ doc = .ok acc ∧
      repairLines acc.kept = .ok out ∧ ws = acc.warns := by
  cases hf : trimFold s e chain ⟨[], []⟩ doc with
  | exn m =>
    simp only [trim_pdb_by_residue_range, hf] at h
    cases h
  | ok acc =>
    simp only [trim_pdb_by_residue_range, hf] at h
    cases hr : repairLines acc.kept with
    | exn m =>
      simp only [hr] at h
      cases h
    | ok o =>
      simp only [hr] at h
      injection h with h1 h2
      exact ⟨acc, rfl, h1 ▸ hr, h2.symm⟩

/-- C4 counterexample: a canonical line with resSeq 9999 and offset 1
(overflowing the 4-column field) is not restored by the inverse offset,
so the claim fails without the fit condition. -/
theorem renumber_inverse_roundtrip_cex :
    renumberDoc (-1) (renumberDoc 1 [l9999]) ≠ [l9999] ∧
    recordOf l9999 = ATOMtok ∧
    pyParseInt (pyStrip (pySlice 22 26 l9999)) = some 9999 ∧
    pySlice 22 26 l9999 = pyFormatInt4 9999 := by decide

lemma findLastAtom_pred {tl : List Line} {la : Line}
    (h : findLastAtom tl = some la) : atomStart la = true := by
  unfold findLastAtom at h
  exact List.find?_some h

/-- C1: evaluation at the failing input.  An ATOM line on chain A with
resSeq 1 (outside the removal range [5, 10]) is nevertheless absent from
the output when the chain filter is "B": the code keeps an ATOM/HETATM
line only when the chain matches AND the residue is outside the range,
so every line on a non-matching chain is dropped, contradicting the
claim (and the function's docstring, which says the chain argument only
restricts which chain is trimmed). -/
theorem trim_drops_nonmatching_chain_eval :
    trim_pdb_by_residue_range (some [atomLine1]) 5 10 (some ['B']) = .wrote [endNL] [] ∧
    recordOf atomLine1 = ATOMtok ∧
    pyParseInt (pyStrip (pySlice 22 26 atomLine1)) = some 1 ∧
    ¬((5 : Int) ≤ 1 ∧ (1 : Int) ≤ 10) ∧
    atomLine1 ∉ [endNL] := by decide

/-- C2 (amended): if the last surviving line already strips to `END`,
the repair pass appends nothing and the output is exactly the filtered
sequence; if no line survives, a single synthesized `"END\n"` line is
appended, so the output is that one line (never empty). -/
theorem trim_end_repair_behavior (s e : Int) (chain : Option (List Char))
    (doc : List Line) (acc : TrimAcc)
    (hf : trimFold s e chain ⟨[], []⟩ doc = .ok acc) :
    (∀ lastL, acc.kept.getLast? = some lastL → pyStrip lastL = ENDtok →
      trim_pdb_by_residue_range (some doc) s e chain = .wrote acc.kept acc.warns) ∧
    (acc.kept = [] →
      trim_pdb_by_residue_range (some doc) s e chain = .wrote [endNL] acc.warns) := by
  constructor
  · intro lastL hlast hstrip
    have hne : acc.kept ≠ [] := by
      intro h0
      rw [h0] at hlast
      cases hlast
    have hr : repairLines acc.kept = .ok acc.kept := by
      unfold repairLines
      rw [if_neg (by
        push_neg
        refine ⟨hne, ?_⟩
        rw [hlast]
        simp [hstrip])]
    exact trim_some_eq hf hr
  · intro hkept
    have hr : repairLines acc.kept = .ok [endNL] := by
      rw [hkept]
      decide
    exact trim_some_eq hf hr

/-- Witness for C2: an input consisting of a lone `END` line. -/
theorem trim_end_repair_behavior_witness :
    trim_pdb_by_residue_range (some [endNL]) 5 10 none = .wrote [endNL] [] :=
  (trim_end_repair_behavior 5 10 none [endNL] ⟨[endNL], []⟩ (by decide)).1
    endNL (by decide) (by decide)

/-- C2 counterexample: when nothing survives filtering the written
output is the single line `"END\n"`, not the empty filtered sequence
the claim asserts. -/
theorem trim_no_survivors_appends_end_cex :
    trim_pdb_by_residue_range (some []) 5 10 none = .wrote [endNL] [] ∧
    trimFold 5 10 none ⟨[], []⟩ [] = .ok ⟨[], []⟩ ∧
    [endNL] ≠ ([] : List Line) := by decide

/-- C5 (amended): when the removal range is inverted (`e < s`), the
range filter matches no residue, so every ATOM/HETATM line with a
parseable resSeq that satisfies the chain condition appears in the
output; lines can still be dropped for the usual non-range reasons
(record types outside the keep-list, unparseable resSeq, non-matching
chain), so the output need not equal the input. -/
theorem trim_inverted_range_keeps (s e : Int) (chain : Option (List Char))
    (doc out ws : List Line)
    (h : trim_pdb_by_residue_range (some doc) s e chain = .wrote out ws)
    (hse : e < s) (l : Line) (hl : l ∈ doc)
    (hrec : recordOf l = ATOMtok ∨ recordOf l = HETATMtok)
    (hn : ∃ n, pyParseInt (pyStrip (pySlice 22 26 l)) = some n)
    (hchain : chain = none ∨ ∃ c, l.get? 21 = some c ∧ chain = some (pyStrip [c])) :
    l ∈ out := by
  obtain ⟨acc, hf, hr, hws⟩ := trim_wrote_inv h
  have hkept : l ∈ acc.kept := trimFold_keeps hse doc _ _ hf l hl hrec hn hchain
  obtain ⟨suf, hsuf⟩ := repairLines_suffix hr
  rw [hsuf]
  exact List.mem_append_left _ hkept

/-- Witness for C5: a kept ATOM line under an inverted range. -/
theorem trim_inverted_range_keeps_witness :
    atomLine1 ∈ [atomLine1, terLine1, endNL] :=
  trim_inverted_range_keeps 10 5 none [atomLine1] [atomLine1, terLine1, endNL] []
    (by decide) (by decide) atomLine1 (by decide) (by decide)
    ⟨1, by decide⟩ (Or.inl rfl)

/-- C5 counterexample: with start 10 > end 5, a `HEADER` input line is
still dropped (it is outside the keep-list), so "every input line
appears unchanged in the output" is false. -/
theorem trim_inverted_range_keeps_cex :
    trim_pdb_by_residue_range (some [headerLine]) 10 5 none = .wrote [endNL] [] ∧
    headerLine ∈ [headerLine] ∧ headerLine ∉ [endNL] := by decide

/-- C6 (amended): if some surviving line literally starts with `ATOM` or
`HETATM` (the criterion the repair scan uses), the output either keeps
the filtered sequence unchanged because it already ends in `END`, or is
the filtered sequence followed by a synthesized `TER` line and the
`"END\n"` line.  A line the filter classifies as ATOM by its stripped
record name but that does not literally start with `ATOM` escapes the
scan. -/
theorem trim_structural_closure (s e : Int) (chain : Option (List Char))
    (doc out ws : List Line) (acc : TrimAcc)
    (hf : trimFold s e chain ⟨[], []⟩ doc = .ok acc)
    (h : trim_pdb_by_residue_range (some doc) s e chain = .wrote out ws)
    (hsome : ∃ l ∈ acc.kept, atomStart l = true) :
    (∃ lastL, acc.kept.getLast? = some lastL ∧ pyStrip lastL = ENDtok ∧
      out = acc.kept) ∨
    (∃ ter, TERtok.isPrefixOf ter = true ∧ out = acc.kept ++ [ter, endNL]) := by
  obtain ⟨acc', hf', hr, hws⟩ := trim_wrote_inv h
  have hacc : acc = acc' := by
    have h0 := hf.symm.trans hf'
    injection h0
  subst hacc
  rcases repairLines_cases acc.kept with ⟨hc, heq⟩ |
    ⟨hc, ⟨hfa, heq⟩ | ⟨la, hfa, hter, heq⟩ | ⟨la, m, hfa, hter, hts, heq⟩ |
      ⟨la, ter, hfa, hter, hts, heq⟩⟩
  · rw [heq] at hr
    injection hr with h'
    push_neg at hc
    obtain ⟨hne, hEnd⟩ := hc
    cases hg : acc.kept.getLast? with
    | none => rw [hg] at hEnd; simp at hEnd
    | some x =>
      rw [hg] at hEnd
      simp only [Option.map_some', Option.some.injEq] at hEnd
      exact Or.inl ⟨x, rfl, hEnd, h'.symm⟩
  · obtain ⟨la, hla, _⟩ := findLastAtom_some hsome
    rw [hfa] at hla
    cases hla
  · have hat := findLastAtom_pred hfa
    rw [atomStart_not_TER hat] at hter
    cases hter
  · rw [heq] at hr
    cases hr
  · rw [heq] at hr
    injection hr with h'
    obtain ⟨r, rfl⟩ := terSynth_shape hts
    have hstrip : pyStrip ('T' :: 'E' :: 'R' :: r) ≠ ENDtok := pyStrip_terLine
    have hec : endCheck (acc.kept ++ ['T' :: 'E' :: 'R' :: r]) =
        acc.kept ++ ['T' :: 'E' :: 'R' :: r] ++ [endNL] := by
      unfold endCheck
      rw [if_pos (Or.inr (by
        intro hcontra
        rw [List.getLast?_concat] at hcontra
        simp only [Option.map_some', Option.some.injEq] at hcontra
        exact hstrip hcontra))]
    refine Or.inr ⟨'T' :: 'E' :: 'R' :: r, by simp [TERtok, List.isPrefixOf], ?_⟩
    rw [← h', hec, List.append_assoc]
    rfl

/-- Witness for C6: one surviving ATOM line gets a TER/END pair. -/
theorem trim_structural_closure_witness :
    (∃ lastL, ([atomLine1] : List Line).getLast? = some lastL ∧
      pyStrip lastL = ENDtok ∧
      [atomLine1, terLine1, endNL] = [atomLine1]) ∨
    (∃ ter, TERtok.isPrefixOf ter = true ∧
      [atomLine1, terLine1, endNL] = [atomLine1] ++ [ter, endNL]) :=
  trim_structural_closure 10 5 none [atomLine1] [atomLine1, terLine1, endNL] []
    ⟨[atomLine1], []⟩ (by decide) (by decide) ⟨atomLine1, by decide, by decide⟩

/-- C6 counterexample: a line whose stripped record name is `ATOM` but
whose raw text starts with a space survives filtering, yet the repair
scan does not find it, so no `TER` is synthesized: the output's final
two lines are the line itself and `END`, refuting the claim for lines
classified as ATOM/HETATM by the filter's own criterion. -/
theorem trim_structural_closure_cex :
    trim_pdb_by_residue_range (some [shiftLine]) 10 20 none =
      .wrote [shiftLine, endNL] [] ∧
    trimFold 10 20 none ⟨[], []⟩ [shiftLine] = .ok ⟨[shiftLine], []⟩ ∧
    recordOf shiftLine = ATOMtok ∧
    pyStrip shiftLine ≠ ENDtok ∧
    TERtok.isPrefixOf shiftLine = false := by decide

/-- C7: an ATOM/HETATM line whose nonblank resSeq field does not parse
as an integer is passed through byte-for-byte by the renumberer (for
every offset) and is dropped by the trimmer's filter with the line
recorded in an insertion-code warning. -/
theorem unparseable_resseq_behavior (l : Line)
    (hrec : recordOf l = ATOMtok ∨ recordOf l = HETATMtok)
    (hne : pyStrip (pySlice 22 26 l) ≠ [])
    (hbad : pyParseInt (pyStrip (pySlice 22 26 l)) = none) :
    (∀ k, renumberLine k l = l) ∧
    (∀ s e chain acc, trimStep s e chain acc l =
      .ok { acc with warns := acc.warns ++ [l] }) := by
  constructor
  · intro k
    exact renumberLine_id_of_parse_none k hrec hbad
  · intro s e chain acc
    have hlen : 22 < l.length := by
      by_contra hcon
      push_neg at hcon
      have h0 : pySlice 22 26 l = [] := by
        simp [pySlice, List.drop_eq_nil_of_le hcon]
      rw [h0] at hne
      exact hne rfl
    obtain ⟨c21, hg⟩ := get21_some hlen
    unfold trimStep
    rw [if_pos hrec, hg]
    simp only [if_neg hne, hbad]

/-- Witness for C7 at the insertion-coded line `100A`. -/
theorem unparseable_resseq_behavior_witness :
    renumberLine 3 l100A = l100A ∧
    trimStep 5 10 none ⟨[], []⟩ l100A = .ok ⟨[], [l100A]⟩ := by
  have h := unparseable_resseq_behavior l100A (by decide) (by decide) (by decide)
  exact ⟨h.1 3, h.2 5 10 none ⟨[], []⟩⟩

/-- C8: on a missing input file the renumberer exits the process with
status 1 while the trimmer reports and returns normally, an asymmetric
error-signaling contract. -/
theorem missing_input_signaling (k s e : Int) (chain : Option (List Char)) :
    renumber_pdb_residues none k = .exited 1 ∧
    trim_pdb_by_residue_range none s e chain = .returned FileNotFoundMsg :=
  ⟨rfl, rfl⟩

/-- C9: whenever the trimmer writes an output file, its last line strips
to `END`; and when nothing survives filtering the output is exactly the
single line `"END\n"`. -/
theorem trim_output_ends_with_end (s e : Int) (chain : Option (List Char))
    (doc out ws : List Line)
    (h : trim_pdb_by_residue_range (some doc) s e chain = .wrote out ws) :
    (∃ lastL, out.getLast? = some lastL ∧ pyStrip lastL = ENDtok) ∧
    (∀ acc, trimFold s e chain ⟨[], []⟩ doc = .ok acc → acc.kept = [] →
      out = [endNL]) := by
  obtain ⟨acc, hf, hr, hws⟩ := trim_wrote_inv h
  constructor
  · exact repairLines_getLast hr
  · intro acc2 hf2 hkept
    have hacc : acc = acc2 := by
      have h0 := hf.symm.trans hf2
      injection h0
    subst hacc
    rw [hkept] at hr
    rw [show repairLines ([] : List Line) = .ok [endNL] from by decide] at hr
    injection hr with h'
    exact h'.symm

/-- Witness for C9 on the empty input. -/
theorem trim_output_ends_with_end_witness :
    ∃ lastL, ([endNL] : List Line).getLast? = some lastL ∧ pyStrip lastL = ENDtok :=
  (trim_output_ends_with_end 5 10 none [] [endNL] [] (by decide)).1

/-- C10: when the repair pass is triggered, the backward scan finds a
last atom line, and that line's serial field (columns 7-11) does not
parse as an integer, TER synthesis raises, the generic handler reports,
and the trimmer returns without writing any output. -/
theorem ter_synthesis_failure_returns (s e : Int) (chain : Option (List Char))
    (doc : List Line) (acc : TrimAcc) (la : Line) (c21 : Char)
    (hf : trimFold s e chain ⟨[], []⟩ doc = .ok acc)
    (hend : ¬ Option.map pyStrip acc.kept.getLast? = some ENDtok)
    (hla : findLastAtom acc.kept = some la)
    (hg : la.get? 21 = some c21)
    (hser : pyParseInt (pySlice 6 11 la) = none) :
    trim_pdb_by_residue_range (some doc) s e chain = .returned ValueErrorMsg ∧
    ∀ out ws, trim_pdb_by_residue_range (some doc) s e chain ≠ .wrote out ws := by
  have hat : atomStart la = true := findLastAtom_pred hla
  have hter : ¬ TERtok.isPrefixOf la = true := by
    rw [atomStart_not_TER hat]
    simp
  have hts : terSynth la = .exn ValueErrorMsg := by
    unfold terSynth
    rw [hg]
    simp only [hser]
  have hrep : repairLines acc.kept = .exn ValueErrorMsg := by
    simp only [repairLines, if_pos (Or.inr hend), hla, hts]
    rw [if_neg hter]
  have h1 : trim_pdb_by_residue_range (some doc) s e chain =
      .returned ValueErrorMsg := by
    simp only [trim_pdb_by_residue_range, hf, hrep]
  refine ⟨h1, ?_⟩
  intro out ws hcontra
  rw [h1] at hcontra
  cases hcontra

/-- Witness for C10 at a kept ATOM line with serial `XXXXX`. -/
theorem ter_synthesis_failure_returns_witness :
    trim_pdb_by_residue_range (some [badSerialLine]) 10 20 none =
      .returned ValueErrorMsg :=
  (ter_synthesis_failure_returns 10 20 none [badSerialLine] ⟨[badSerialLine], []⟩
    badSerialLine 'A' (by decide) (by decide) (by decide) (by decide) (by decide)).1
